import Mathlib

/-!
Verification of the trading-monitor dashboard (SymbolSelector.jsx and the App
controller).  JavaScript strings are embedded as lists of characters, and the
string operations used by the code (split on a comma, trim, join, includes)
are given as executable Lean functions with the same semantics.
-/

namespace TradingMonitor

/-- A JavaScript string, embedded as its list of characters. -/
abbrev JStr := List Char

/-- Conversion from a Lean string literal to the embedded string type. -/
def str (s : String) : JStr := s.data

/-- JS `s.split(c)` for a one-character separator: splits at every occurrence
of the separator, keeping empty pieces, and returns `[""]` on the empty
string. -/
def jsplit (c : Char) : JStr → List JStr
  | [] => [[]]
  | a :: rest =>
    match jsplit c rest with
    | [] => [[]]
    | t :: ts => if a = c then [] :: t :: ts else (a :: t) :: ts

/-- JS `s.trim()`: drop whitespace from both ends. -/
def jtrim (s : JStr) : JStr :=
  (((s.dropWhile Char.isWhitespace).reverse).dropWhile Char.isWhitespace).reverse

/-- JS `arr.join(c)` for a one-character separator. -/
def jjoin (c : Char) : List JStr → JStr
  | [] => []
  | [x] => x
  | x :: y :: rest => x ++ c :: jjoin c (y :: rest)

/-- JS `arr.includes(x)` on an array of strings (strict equality). -/
def jincl (l : List JStr) (x : JStr) : Bool :=
  match l with
  | [] => false
  | t :: rest => if t = x then true else jincl rest x

/-- JS `s.includes(pat)` on strings: substring containment. -/
def jincludes (s pat : JStr) : Bool := decide (pat <:+: s)

theorem jincl_iff (l : List JStr) (x : JStr) : jincl l x = true ↔ x ∈ l := by
  induction l with
  | nil => simp [jincl]
  | cons t rest ih =>
    simp only [jincl]
    by_cases h : t = x
    · subst h; simp
    · rw [if_neg h, ih, List.mem_cons]
      constructor
      · exact Or.inr
      · rintro (hx | hx)
        · exact absurd hx.symm h
        · exact hx

theorem jincl_eq_false_iff (l : List JStr) (x : JStr) :
    jincl l x = false ↔ x ∉ l := by
  rw [← jincl_iff]
  cases hb : jincl l x <;> simp [hb]

theorem jsplit_ne_nil (c : Char) (s : JStr) : jsplit c s ≠ [] := by
  induction s with
  | nil => simp [jsplit]
  | cons a rest ih =>
    simp only [jsplit]
    cases h : jsplit c rest with
    | nil => exact absurd h ih
    | cons t ts =>
      by_cases hac : a = c <;> simp [hac]

theorem mem_jsplit_not_sep (c : Char) (s : JStr) :
    ∀ t ∈ jsplit c s, c ∉ t := by
  induction s with
  | nil => intro t ht; simp [jsplit] at ht; simp [ht]
  | cons a rest ih =>
    intro t ht
    simp only [jsplit] at ht
    cases h : jsplit c rest with
    | nil => exact absurd h (jsplit_ne_nil c rest)
    | cons t0 ts =>
      rw [h] at ht
      by_cases hac : a = c
      · simp [hac] at ht
        rcases ht with ht | ht | ht
        · simp [ht]
        · subst ht
          exact ih t (by rw [h]; exact List.mem_cons_self t ts)
        · exact ih t (by rw [h]; exact List.mem_cons_of_mem t0 ht)
      · simp [hac] at ht
        rcases ht with ht | ht
        · subst ht
          intro hc
          rcases List.mem_cons.mp hc with hc | hc
          · exact hac hc.symm
          · exact ih t0 (by rw [h]; exact List.mem_cons_self t0 ts) hc
        · exact ih t (by rw [h]; exact List.mem_cons_of_mem t0 ht)

theorem jsplit_no_sep {c : Char} {s : JStr} (h : c ∉ s) : jsplit c s = [s] := by
  induction s with
  | nil => rfl
  | cons a rest ih =>
    have hac : a ≠ c := fun hh => h (hh ▸ List.mem_cons_self a rest)
    have hrest : c ∉ rest := fun hh => h (List.mem_cons_of_mem a hh)
    simp only [jsplit, ih hrest]
    simp [fun hh : a = c => hac hh]

theorem jsplit_append_cons {c : Char} {x : JStr} (r : JStr) (h : c ∉ x) :
    jsplit c (x ++ c :: r) = x :: jsplit c r := by
  induction x with
  | nil =>
    simp only [List.nil_append, jsplit]
    cases hr : jsplit c r with
    | nil => exact absurd hr (jsplit_ne_nil c r)
    | cons t ts => simp
  | cons b x' ih =>
    have hbc : b ≠ c := fun hh => h (hh ▸ List.mem_cons_self b x')
    have hx' : c ∉ x' := fun hh => h (List.mem_cons_of_mem b hh)
    simp only [List.cons_append, jsplit, List.append_eq]
    rw [ih hx']
    simp [hbc]

theorem jsplit_jjoin {c : Char} (L : List JStr) (hne : L ≠ [])
    (h : ∀ s ∈ L, c ∉ s) : jsplit c (jjoin c L) = L := by
  induction L with
  | nil => exact absurd rfl hne
  | cons x L' ih =>
    cases L' with
    | nil =>
      simp only [jjoin]
      exact jsplit_no_sep (h x (List.mem_cons_self x []))
    | cons y rest =>
      simp only [jjoin]
      rw [jsplit_append_cons _ (h x (List.mem_cons_self x _))]
      rw [ih (by simp) (fun s hs => h s (List.mem_cons_of_mem x hs))]

theorem dropWhile_dropWhile (p : Char → Bool) (l : JStr) :
    (l.dropWhile p).dropWhile p = l.dropWhile p := by
  induction l with
  | nil => rfl
  | cons a l ih =>
    by_cases hp : p a = true
    · simp [List.dropWhile, hp, ih]
    · simp [List.dropWhile, hp]

theorem dropWhile_head_false (p : Char → Bool) (l : JStr)
    (hl : match l with | [] => True | a :: _ => p a = false) :
    l.dropWhile p = l := by
  cases l with
  | nil => rfl
  | cons a l => simp [List.dropWhile, hl]

theorem jtrim_subset (s : JStr) : ∀ a ∈ jtrim s, a ∈ s := by
  intro a ha
  unfold jtrim at ha
  rw [List.mem_reverse] at ha
  have h1 := (List.dropWhile_sublist (l := (s.dropWhile Char.isWhitespace).reverse)
    (p := Char.isWhitespace)).subset ha
  rw [List.mem_reverse] at h1
  exact (List.dropWhile_sublist (l := s) (p := Char.isWhitespace)).subset h1

theorem jtrim_idem (s : JStr) : jtrim (jtrim s) = jtrim s := by
  have key : ∀ (u t : JStr), u.dropWhile Char.isWhitespace = u →
      t = (u.reverse.dropWhile Char.isWhitespace).reverse →
      jtrim t = t := by
    intro u t hdu ht
    have hthead : t.dropWhile Char.isWhitespace = t := by
      apply dropWhile_head_false
      cases hcase : t with
      | nil => trivial
      | cons a t' =>
        have hsfx : u.reverse.dropWhile Char.isWhitespace <:+ u.reverse :=
          List.dropWhile_suffix _
        have hpref : t <+: u := by
          rw [ht]
          have h2 := List.reverse_prefix.mpr hsfx
          rwa [List.reverse_reverse] at h2
        rcases hpref with ⟨tail, htail⟩
        have hua : u = a :: (t' ++ tail) := by rw [← htail, hcase]; simp
        rw [hua] at hdu
        by_cases hp : Char.isWhitespace a = true
        · exfalso
          rw [List.dropWhile_cons_of_pos hp] at hdu
          have hlen := (List.dropWhile_sublist (l := t' ++ tail)
            (p := Char.isWhitespace)).length_le
          rw [hdu] at hlen
          simp at hlen
        · simpa using hp
    have htback : t.reverse.dropWhile Char.isWhitespace = t.reverse := by
      rw [ht, List.reverse_reverse]
      exact dropWhile_dropWhile _ _
    unfold jtrim
    rw [hthead, htback, List.reverse_reverse]
  exact key (s.dropWhile Char.isWhitespace) (jtrim s) (dropWhile_dropWhile _ _) rfl

/-- The tokenization used throughout `SymbolSelector.jsx`:
`value.split(',').map(s => s.trim()).filter(Boolean)`. -/
def tokensOf (v : JStr) : List JStr :=
  ((jsplit ',' v).map jtrim).filter (fun s => !s.isEmpty)

/-- A clean token: trimmed, non-empty, and free of the separator.  Every
token produced by `tokensOf` is clean, and splitting a join of clean tokens
recovers exactly those tokens. -/
def CleanTok (s : JStr) : Prop := jtrim s = s ∧ s ≠ [] ∧ ',' ∉ s

instance (s : JStr) : Decidable (CleanTok s) := by
  unfold CleanTok; infer_instance

theorem jtrim_comma_free {s : JStr} (h : ',' ∉ s) : ',' ∉ jtrim s :=
  fun hc => h (jtrim_subset s ',' hc)

theorem tokensOf_clean (v : JStr) : ∀ t ∈ tokensOf v, CleanTok t := by
  intro t ht
  unfold tokensOf at ht
  rw [List.mem_filter] at ht
  rcases ht with ⟨hmem, hne⟩
  rw [List.mem_map] at hmem
  rcases hmem with ⟨piece, hpiece, hpt⟩
  refine ⟨?_, ?_, ?_⟩
  · rw [← hpt]; exact jtrim_idem piece
  · intro hnil
    rw [hnil] at hne
    simp [List.isEmpty] at hne
  · rw [← hpt]
    exact jtrim_comma_free (mem_jsplit_not_sep ',' v piece hpiece)

theorem tokensOf_jjoin (L : List JStr) (h : ∀ t ∈ L, CleanTok t) :
    tokensOf (jjoin ',' L) = L := by
  cases hL : L with
  | nil => rfl
  | cons x L' =>
    rw [← hL]
    have hne : L ≠ [] := by rw [hL]; simp
    unfold tokensOf
    rw [jsplit_jjoin L hne (fun s hs => (h s hs).2.2)]
    have hmap : L.map jtrim = L :=
      List.map_congr_left (fun t ht => (h t ht).1) |>.trans (List.map_id L)
    rw [hmap]
    apply List.filter_eq_self.mpr
    intro t ht
    have := (h t ht).2.1
    cases t with
    | nil => exact absurd rfl this
    | cons a t' => simp [List.isEmpty]

/- ---------------------------------------------------------------------- -/
/- The symbol-selector widget (SymbolSelector.jsx).                        -/
/- ---------------------------------------------------------------------- -/

/-- The checkbox state: a JS object mapping symbol names to booleans,
embedded as an association list in key-insertion order. -/
abbrev SelMap := List (JStr × Bool)

/-- JS object read `m[k]` coerced to a boolean (`undefined` is falsy). -/
def objGet : SelMap → JStr → Bool
  | [], _ => false
  | (k', v) :: rest, k => if k' = k then v else objGet rest k

/-- JS object update `{...m, [k]: v}`: an existing key keeps its position
with the new value, a fresh key is appended. -/
def objSet {β : Type} : List (JStr × β) → JStr → β → List (JStr × β)
  | [], k, v => [(k, v)]
  | (k', v') :: rest, k, v =>
    if k' = k then (k, v) :: rest else (k', v') :: objSet rest k v

/-- `Object.keys(m).filter(key => m[key])`: the keys whose value is true,
in insertion order. -/
def checkedKeys (m : SelMap) : List JStr :=
  (m.filter (fun p => p.2)).map Prod.fst

/-- The symbol catalog of the widget, grouped by category. -/
def symbolCategories : List (JStr × List JStr) :=
  [(str ("Major Forex"),
    [str ("EURUSD"), str ("GBPUSD"), str ("AUDUSD"), str ("NZDUSD"),
     str ("USDJPY"), str ("USDCHF"), str ("USDCAD")]),
   (str ("Crypto"), [str ("BTCUSD")]),
   (str ("Indices"), [str ("NAS100")])]

/-- `Object.values(symbolCategories).flat()`. -/
def allCommonSymbols : List JStr := (symbolCategories.map Prod.snd).flatten

/-- The mount-time effect that derives the initial checkbox map from the
incoming text value. -/
def initSelected (value : JStr) : SelMap :=
  allCommonSymbols.foldl
    (fun acc symbol => objSet acc symbol (jincl (tokensOf value) symbol)) []

/-- `updateSymbolInput`: emit the new text from the checkbox map and the
non-catalog tokens of the current text. -/
def updateSymbolInput (m : SelMap) (value : JStr) : JStr :=
  let checkedSymbols := checkedKeys m
  let currentCustomSymbols :=
    ((jsplit ',' value).map jtrim).filter
      (fun s => !s.isEmpty && !jincl allCommonSymbols s)
  jjoin ',' (checkedSymbols ++ currentCustomSymbols)

/-- `handleSymbolToggle` (enabled path): flip the checkbox, then emit the
text.  Returns the new map and the new text value. -/
def handleSymbolToggle (m : SelMap) (value : JStr) (symbol : JStr) :
    SelMap × JStr :=
  let m' := objSet m symbol (!objGet m symbol)
  (m', updateSymbolInput m' value)

/-- `handleAddCustomSymbol` (enabled path): append the pending custom symbol
to the text if absent, and check its box if it is a catalog symbol. -/
def handleAddCustomSymbol (m : SelMap) (value : JStr) (customSymbol : JStr) :
    SelMap × JStr :=
  if customSymbol = [] then (m, value)
  else
    let symbols := tokensOf value
    let value' :=
      if jincl symbols customSymbol then value
      else jjoin ',' (symbols ++ [customSymbol])
    let m' :=
      if jincl allCommonSymbols customSymbol then objSet m customSymbol true
      else m
    (m', value')

/-- `handleDirectInputChange`: accept the new text and re-derive every
catalog symbol's checkbox from its tokens. -/
def handleDirectInputChange (m : SelMap) (newInput : JStr) : SelMap × JStr :=
  let symbolsArray := tokensOf newInput
  let m' := allCommonSymbols.foldl
    (fun acc symbol => objSet acc symbol (jincl symbolsArray symbol)) m
  (m', newInput)

/-- The reconciliation invariant: checkbox state of every catalog symbol
agrees with token membership in the text, and the map holds no keys outside
the catalog (and no duplicate keys). -/
def Synced (m : SelMap) (value : JStr) : Prop :=
  (∀ s ∈ allCommonSymbols, objGet m s = jincl (tokensOf value) s) ∧
  (∀ p ∈ m, p.1 ∈ allCommonSymbols) ∧
  (m.map Prod.fst).Nodup

instance (m : SelMap) (value : JStr) : Decidable (Synced m value) := by
  unfold Synced; infer_instance

theorem objGet_objSet_same (m : SelMap) (k : JStr) (v : Bool) :
    objGet (objSet m k v) k = v := by
  induction m with
  | nil => simp [objSet, objGet]
  | cons p rest ih =>
    rcases p with ⟨k', v'⟩
    by_cases h : k' = k
    · simp [objSet, h, objGet]
    · simp [objSet, h, objGet, ih]

theorem objGet_objSet_other (m : SelMap) {k k' : JStr} (v : Bool)
    (h : k' ≠ k) : objGet (objSet m k v) k' = objGet m k' := by
  have hkk : k ≠ k' := fun hh => h hh.symm
  induction m with
  | nil => simp [objSet, objGet, hkk]
  | cons p rest ih =>
    rcases p with ⟨a, b⟩
    by_cases hak : a = k
    · subst hak
      simp [objSet, objGet, hkk]
    · simp [objSet, hak, objGet, ih]

theorem mem_objSet {m : SelMap} {k : JStr} {v : Bool} {p : JStr × Bool}
    (h : p ∈ objSet m k v) : p = (k, v) ∨ p ∈ m := by
  induction m with
  | nil => simp [objSet] at h; simp [h]
  | cons q rest ih =>
    rcases q with ⟨a, b⟩
    by_cases hak : a = k
    · simp [objSet, hak] at h
      rcases h with h | h
      · exact Or.inl (by simp [h])
      · exact Or.inr (List.mem_cons_of_mem _ h)
    · simp [objSet, hak] at h
      rcases h with h | h
      · exact Or.inr (by simp [h])
      · rcases ih h with h' | h'
        · exact Or.inl h'
        · exact Or.inr (List.mem_cons_of_mem _ h')

theorem mem_keys_objSet {m : SelMap} {k a : JStr} {v : Bool}
    (h : a ∈ (objSet m k v).map Prod.fst) :
    a = k ∨ a ∈ m.map Prod.fst := by
  rw [List.mem_map] at h
  rcases h with ⟨p, hp, hpa⟩
  rcases mem_objSet hp with h' | h'
  · left; rw [← hpa, h']
  · right; rw [List.mem_map]; exact ⟨p, h', hpa⟩

theorem keys_objSet_mono {m : SelMap} {a : JStr} (k : JStr) (v : Bool)
    (h : a ∈ m.map Prod.fst) : a ∈ (objSet m k v).map Prod.fst := by
  induction m with
  | nil => simp at h
  | cons q rest ih =>
    rcases q with ⟨b, w⟩
    by_cases hbk : b = k
    · subst hbk
      simp [objSet]
      simp at h
      rcases h with h | h
      · exact Or.inl h
      · exact Or.inr h
    · simp [objSet, hbk]
      simp at h
      rcases h with h | h
      · exact Or.inl h
      · exact Or.inr (by simpa using ih (by simpa using h))

theorem objSet_self_mem_keys (m : SelMap) (k : JStr) (v : Bool) :
    k ∈ (objSet m k v).map Prod.fst := by
  induction m with
  | nil => simp [objSet]
  | cons q rest ih =>
    rcases q with ⟨b, w⟩
    by_cases hbk : b = k
    · simp [objSet, hbk]
    · simp [objSet, hbk]
      exact Or.inr (by simpa using ih)

theorem nodup_keys_objSet {m : SelMap} (k : JStr) (v : Bool)
    (h : (m.map Prod.fst).Nodup) : ((objSet m k v).map Prod.fst).Nodup := by
  induction m with
  | nil => simp [objSet]
  | cons q rest ih =>
    rcases q with ⟨b, w⟩
    rw [List.map_cons, List.nodup_cons] at h
    rcases h with ⟨hb, hrest⟩
    by_cases hbk : b = k
    · subst hbk
      have hset : objSet ((b, w) :: rest) b v = (b, v) :: rest := by
        simp [objSet]
      rw [hset, List.map_cons, List.nodup_cons]
      exact ⟨hb, hrest⟩
    · simp only [objSet, if_neg hbk]
      rw [List.map_cons, List.nodup_cons]
      refine ⟨?_, ih hrest⟩
      intro hmem
      rcases mem_keys_objSet hmem with h' | h'
      · exact hbk h'
      · exact hb h'

theorem checkedKeys_subset (m : SelMap) {s : JStr}
    (h : s ∈ checkedKeys m) : s ∈ m.map Prod.fst := by
  unfold checkedKeys at h
  rw [List.mem_map] at h
  rcases h with ⟨p, hp, hps⟩
  rw [List.mem_filter] at hp
  rw [List.mem_map]
  exact ⟨p, hp.1, hps⟩

theorem checkedKeys_cons_true (k : JStr) (rest : SelMap) :
    checkedKeys ((k, true) :: rest) = k :: checkedKeys rest := by
  simp [checkedKeys]

theorem checkedKeys_cons_false (k : JStr) (rest : SelMap) :
    checkedKeys ((k, false) :: rest) = checkedKeys rest := by
  simp [checkedKeys]

theorem mem_checkedKeys {m : SelMap} (hnd : (m.map Prod.fst).Nodup)
    (s : JStr) : s ∈ checkedKeys m ↔ objGet m s = true := by
  induction m with
  | nil => simp [checkedKeys, objGet]
  | cons p rest ih =>
    rcases p with ⟨k, v⟩
    rw [List.map_cons, List.nodup_cons] at hnd
    rcases hnd with ⟨hk, hrest⟩
    cases v with
    | true =>
      rw [checkedKeys_cons_true, List.mem_cons]
      by_cases hks : k = s
      · subst hks
        simp [objGet]
      · simp only [objGet, if_neg hks]
        rw [← ih hrest]
        constructor
        · rintro (h | h)
          · exact absurd h.symm hks
          · exact h
        · exact Or.inr
    | false =>
      rw [checkedKeys_cons_false]
      by_cases hks : k = s
      · subst hks
        simp only [objGet, if_pos rfl]
        constructor
        · intro hmem
          exact absurd (checkedKeys_subset rest hmem) hk
        · intro hfalse
          exact absurd hfalse (by simp)
      · simp only [objGet, if_neg hks]
        exact ih hrest

theorem objSet_objGet_mem {m : SelMap} {k : JStr}
    (hk : k ∈ m.map Prod.fst) : objSet m k (objGet m k) = m := by
  induction m with
  | nil => simp at hk
  | cons p rest ih =>
    rcases p with ⟨a, b⟩
    by_cases hak : a = k
    · subst hak
      simp [objSet, objGet]
    · simp [objSet, objGet, hak]
      apply ih
      simp at hk
      rcases hk with hk | hk
      · exact absurd hk.symm hak
      · simpa using hk

theorem foldl_objSet_get_not_mem (f : JStr → Bool) (L : List JStr)
    (m : SelMap) (s : JStr) (h : s ∉ L) :
    objGet (L.foldl (fun acc x => objSet acc x (f x)) m) s = objGet m s := by
  induction L generalizing m with
  | nil => rfl
  | cons a L' ih =>
    have hsa : s ≠ a := fun hh => h (hh ▸ List.mem_cons_self a L')
    have hsL' : s ∉ L' := fun hh => h (List.mem_cons_of_mem a hh)
    rw [List.foldl_cons, ih _ hsL', objGet_objSet_other m (f a) hsa]

theorem foldl_objSet_get (f : JStr → Bool) (L : List JStr) (m : SelMap)
    (s : JStr) :
    objGet (L.foldl (fun acc x => objSet acc x (f x)) m) s =
      if s ∈ L then f s else objGet m s := by
  induction L generalizing m with
  | nil => simp
  | cons a L' ih =>
    rw [List.foldl_cons, ih]
    by_cases hsL' : s ∈ L'
    · simp [hsL', List.mem_cons]
    · by_cases hsa : s = a
      · subst hsa
        simp [hsL', objGet_objSet_same]
      · simp [hsL', hsa, objGet_objSet_other m (f a) hsa]

theorem keys_foldl_mono (f : JStr → Bool) (L : List JStr) (m : SelMap)
    {a : JStr} (h : a ∈ m.map Prod.fst) :
    a ∈ ((L.foldl (fun acc x => objSet acc x (f x)) m).map Prod.fst) := by
  induction L generalizing m with
  | nil => exact h
  | cons b L' ih => exact ih _ (keys_objSet_mono b (f b) h)

theorem mem_keys_foldl_of_mem (f : JStr → Bool) (L : List JStr) (m : SelMap)
    {s : JStr} (h : s ∈ L) :
    s ∈ ((L.foldl (fun acc x => objSet acc x (f x)) m).map Prod.fst) := by
  induction L generalizing m with
  | nil => simp at h
  | cons a L' ih =>
    rw [List.foldl_cons]
    by_cases hsa : s = a
    · subst hsa
      exact keys_foldl_mono f L' _ (objSet_self_mem_keys m s (f s))
    · rcases List.mem_cons.mp h with h' | h'
      · exact absurd h' hsa
      · exact ih _ h'

theorem mem_keys_foldl (f : JStr → Bool) (L : List JStr) (m : SelMap)
    {a : JStr}
    (h : a ∈ ((L.foldl (fun acc x => objSet acc x (f x)) m).map Prod.fst)) :
    a ∈ L ∨ a ∈ m.map Prod.fst := by
  induction L generalizing m with
  | nil => exact Or.inr h
  | cons b L' ih =>
    rw [List.foldl_cons] at h
    rcases ih _ h with h' | h'
    · exact Or.inl (List.mem_cons_of_mem b h')
    · rcases mem_keys_objSet h' with h'' | h''
      · exact Or.inl (h'' ▸ List.mem_cons_self b L')
      · exact Or.inr h''

theorem nodup_keys_foldl (f : JStr → Bool) (L : List JStr) (m : SelMap)
    (h : (m.map Prod.fst).Nodup) :
    ((L.foldl (fun acc x => objSet acc x (f x)) m).map Prod.fst).Nodup := by
  induction L generalizing m with
  | nil => exact h
  | cons b L' ih => exact ih _ (nodup_keys_objSet b (f b) h)

theorem foldl_objSet_noop (f : JStr → Bool) (L : List JStr) (m : SelMap)
    (h : ∀ s ∈ L, s ∈ m.map Prod.fst ∧ objGet m s = f s) :
    L.foldl (fun acc x => objSet acc x (f x)) m = m := by
  induction L with
  | nil => rfl
  | cons a L' ih =>
    rcases h a (List.mem_cons_self a L') with ⟨hmem, hval⟩
    rw [List.foldl_cons, ← hval, objSet_objGet_mem hmem]
    exact ih (fun s hs => h s (List.mem_cons_of_mem a hs))

theorem jincl_append (l1 l2 : List JStr) (x : JStr) :
    jincl (l1 ++ l2) x = (jincl l1 x || jincl l2 x) := by
  induction l1 with
  | nil => simp [jincl]
  | cons t rest ih =>
    by_cases h : t = x <;> simp [jincl, h, ih]

theorem allCommonSymbols_clean : ∀ s ∈ allCommonSymbols, CleanTok s := by
  decide

theorem allCommonSymbols_nodup : allCommonSymbols.Nodup := by
  decide

/-- The custom-symbol computation inside `updateSymbolInput` is the
non-catalog restriction of the widget tokenization. -/
theorem customs_eq (value : JStr) :
    ((jsplit ',' value).map jtrim).filter
        (fun s => !s.isEmpty && !jincl allCommonSymbols s) =
      (tokensOf value).filter (fun t => !jincl allCommonSymbols t) := by
  unfold tokensOf
  rw [List.filter_filter]
  apply List.filter_congr
  intro a _
  exact Bool.and_comm _ _

theorem mem_customs_clean (value : JStr) :
    ∀ t ∈ (tokensOf value).filter (fun t => !jincl allCommonSymbols t),
      CleanTok t := by
  intro t ht
  rw [List.mem_filter] at ht
  exact tokensOf_clean value t ht.1

theorem mem_customs_not_catalog (value : JStr) {t : JStr}
    (hcat : t ∈ allCommonSymbols) :
    t ∉ (tokensOf value).filter (fun t => !jincl allCommonSymbols t) := by
  intro hmem
  rw [List.mem_filter] at hmem
  have := hmem.2
  simp only [Bool.not_eq_true'] at this
  exact absurd hcat ((jincl_eq_false_iff _ _).mp this)

/-- The tokens of the text emitted by `updateSymbolInput`: the checked keys
followed by the non-catalog tokens of the previous text. -/
theorem tokensOf_updateSymbolInput (m : SelMap) (value : JStr)
    (hkeys : ∀ p ∈ m, p.1 ∈ allCommonSymbols) :
    tokensOf (updateSymbolInput m value) =
      checkedKeys m ++ (tokensOf value).filter
        (fun t => !jincl allCommonSymbols t) := by
  unfold updateSymbolInput
  rw [customs_eq]
  apply tokensOf_jjoin
  intro t ht
  rcases List.mem_append.mp ht with h | h
  · have hkey := checkedKeys_subset m h
    rw [List.mem_map] at hkey
    rcases hkey with ⟨p, hp, hpt⟩
    exact allCommonSymbols_clean t (hpt ▸ hkeys p hp)
  · exact mem_customs_clean value t h

/-- Membership of a catalog symbol in the emitted text equals its checkbox
state. -/
theorem jincl_tokens_update (m : SelMap) (value t : JStr)
    (hkeys : ∀ p ∈ m, p.1 ∈ allCommonSymbols)
    (hnd : (m.map Prod.fst).Nodup) (ht : t ∈ allCommonSymbols) :
    jincl (tokensOf (updateSymbolInput m value)) t = objGet m t := by
  rw [tokensOf_updateSymbolInput m value hkeys, jincl_append]
  have hcust : jincl ((tokensOf value).filter
      (fun t => !jincl allCommonSymbols t)) t = false :=
    (jincl_eq_false_iff _ _).mpr (mem_customs_not_catalog value ht)
  have hchk : jincl (checkedKeys m) t = objGet m t := by
    cases hg : objGet m t with
    | false =>
      apply (jincl_eq_false_iff _ _).mpr
      intro hmem
      rw [mem_checkedKeys hnd t, hg] at hmem
      cases hmem
    | true =>
      exact (jincl_iff _ _).mpr ((mem_checkedKeys hnd t).mpr hg)
  rw [hcust, hchk, Bool.or_false]

theorem synced_toggle {m : SelMap} {value : JStr}
    (hkeys : ∀ p ∈ m, p.1 ∈ allCommonSymbols)
    (hnd : (m.map Prod.fst).Nodup) {s : JStr} (hs : s ∈ allCommonSymbols) :
    Synced (handleSymbolToggle m value s).1 (handleSymbolToggle m value s).2 := by
  unfold handleSymbolToggle Synced
  set m' := objSet m s (!objGet m s) with hm'
  have hkeys' : ∀ p ∈ m', p.1 ∈ allCommonSymbols := by
    intro p hp
    rcases mem_objSet hp with h | h
    · rw [h]; exact hs
    · exact hkeys p h
  have hnd' : (m'.map Prod.fst).Nodup := nodup_keys_objSet s _ hnd
  refine ⟨?_, hkeys', hnd'⟩
  intro t ht
  rw [jincl_tokens_update m' value t hkeys' hnd' ht]

theorem synced_direct {m : SelMap} (newInput : JStr)
    (hkeys : ∀ p ∈ m, p.1 ∈ allCommonSymbols)
    (hnd : (m.map Prod.fst).Nodup) :
    Synced (handleDirectInputChange m newInput).1
      (handleDirectInputChange m newInput).2 := by
  unfold handleDirectInputChange Synced
  refine ⟨?_, ?_, ?_⟩
  · intro t ht
    rw [foldl_objSet_get, if_pos ht]
  · intro p hp
    have hp1 := List.mem_map_of_mem Prod.fst hp
    rcases mem_keys_foldl _ _ _ hp1 with h | h
    · exact h
    · rw [List.mem_map] at h
      rcases h with ⟨q, hq, hqp⟩
      exact hqp ▸ hkeys q hq
  · exact nodup_keys_foldl _ _ _ hnd

theorem synced_add {m : SelMap} {value : JStr} (hsync : Synced m value)
    {cs : JStr} (htrim : jtrim cs = cs) (hcomma : ',' ∉ cs) :
    Synced (handleAddCustomSymbol m value cs).1
      (handleAddCustomSymbol m value cs).2 := by
  rcases hsync with ⟨hval, hkeys, hnd⟩
  unfold handleAddCustomSymbol
  by_cases hnil : cs = []
  · simp only [hnil, if_pos rfl]
    exact ⟨hval, hkeys, hnd⟩
  · rw [if_neg hnil]
    dsimp only
    by_cases hpres : jincl (tokensOf value) cs = true
    · rw [if_pos hpres]
      by_cases hcat : jincl allCommonSymbols cs = true
      · rw [if_pos hcat]
        have hcs : cs ∈ allCommonSymbols := (jincl_iff _ _).mp hcat
        refine ⟨?_, ?_, nodup_keys_objSet cs true hnd⟩
        · intro t ht
          by_cases hts : t = cs
          · subst hts
            rw [objGet_objSet_same, hpres]
          · rw [objGet_objSet_other m true hts]
            exact hval t ht
        · intro p hp
          rcases mem_objSet hp with h | h
          · rw [h]; exact hcs
          · exact hkeys p h
      · rw [if_neg hcat]
        exact ⟨hval, hkeys, hnd⟩
    · rw [if_neg hpres]
      have hcs_clean : CleanTok cs := ⟨htrim, hnil, hcomma⟩
      have htoks : tokensOf (jjoin ',' (tokensOf value ++ [cs])) =
          tokensOf value ++ [cs] := by
        apply tokensOf_jjoin
        intro t ht
        rcases List.mem_append.mp ht with h | h
        · exact tokensOf_clean value t h
        · rw [List.mem_singleton] at h
          exact h ▸ hcs_clean
      by_cases hcat : jincl allCommonSymbols cs = true
      · rw [if_pos hcat]
        have hcs : cs ∈ allCommonSymbols := (jincl_iff _ _).mp hcat
        refine ⟨?_, ?_, nodup_keys_objSet cs true hnd⟩
        · intro t ht
          rw [htoks, jincl_append]
          by_cases hts : t = cs
          · subst hts
            rw [objGet_objSet_same]
            simp [jincl]
          · rw [objGet_objSet_other m true hts, hval t ht]
            have hst : cs ≠ t := fun hh => hts hh.symm
            have : jincl [cs] t = false := by simp [jincl, hst]
            rw [this, Bool.or_false]
        · intro p hp
          rcases mem_objSet hp with h | h
          · rw [h]; exact hcs
          · exact hkeys p h
      · rw [if_neg hcat]
        refine ⟨?_, hkeys, hnd⟩
        intro t ht
        rw [htoks, jincl_append]
        have hts : cs ≠ t := by
          intro hh
          subst hh
          exact absurd ((jincl_iff _ _).mpr ht) hcat
        have : jincl [cs] t = false := by simp [jincl, hts]
        rw [this, Bool.or_false]
        exact hval t ht

/- ---------------------------------------------------------------------- -/
/- The dashboard controller (the App component).                           -/
/- ---------------------------------------------------------------------- -/

/-- `/monitor/status` response body. -/
structure MonitorStatus where
  active : Bool
  symbols : List JStr
  start_time : Option JStr
deriving DecidableEq

/-- `/health` response body. -/
structure HealthStatus where
  status : JStr
  mt5_status : JStr
deriving DecidableEq

/-- One committed per-symbol detail cache entry; the payloads are the raw
decoded response bodies, kept abstract. -/
structure SymbolDetail (α : Type) where
  chart : α
  levels : α
  analysis : α
  price : α
deriving DecidableEq

/-- The `activeView` state. -/
inductive ViewKind where
  | dashboard
  | symbolDetail
deriving DecidableEq

/-- The controller's state slots, as held by the App component.  `α` stands
for raw decoded JSON payloads (signals map, chart data, ...). -/
structure AppState (α : Type) where
  monitorStatus : MonitorStatus
  signals : α
  healthStatus : HealthStatus
  symbolDetails : List (JStr × SymbolDetail α)
  selectedSymbol : Option JStr
  isLoading : Bool
  error : Option JStr
  symbolInput : JStr
  activeView : ViewKind
deriving DecidableEq

/-- A network request issued against the backend; `startPost` records the
symbols array placed in the POST body. -/
inductive Request where
  | healthGet
  | statusGet
  | signalsGet
  | startPost (symbols : List JStr)
  | stopPost
deriving DecidableEq

/-- A thrown JS error (`name`, `message`), as inspected by the catch
handler of `fetchHealthStatus`. -/
structure JsError where
  name : JStr
  message : JStr
deriving DecidableEq

/-- Outcome of the `/health` GET: transport-level rejection, a non-ok HTTP
status, or a decoded body. -/
inductive HealthOutcome where
  | failure (e : JsError)
  | httpError (status : Nat)
  | success (body : HealthStatus)

/-- A parsed response to the `/monitor/start` POST: the ok flag and the
body's optional `detail` field. -/
structure StartResp where
  ok : Bool
  detail : Option JStr
deriving DecidableEq

def corsErrorMsg : JStr :=
  str ("CORS Error: Cannot connect to API server. Make sure the API server is running and has CORS enabled.")

def natToJStr (n : Nat) : JStr := (Nat.repr n).data

/-- The catch block of `fetchHealthStatus`. -/
def handleHealthErr {α : Type} (e : JsError) (st : AppState α) : AppState α :=
  if jincludes e.message (str ("Failed to fetch")) = true ∨
      e.name = str ("TypeError") then
    { st with error := some corsErrorMsg,
              healthStatus := ⟨str ("error"), str ("Unknown")⟩ }
  else
    { st with
      error := some (str ("Could not connect to API server: ") ++ e.message) }

/-- `fetchHealthStatus`: GET `/health`; throw on a non-ok status; on success
replace the health slot and clear the error. -/
def fetchHealthStatus {α : Type} (o : HealthOutcome) (st : AppState α) :
    AppState α × List Request :=
  (match o with
   | .failure e => handleHealthErr e st
   | .httpError n =>
     handleHealthErr ⟨str ("Error"), str ("HTTP error! Status: ") ++ natToJStr n⟩ st
   | .success body => { st with healthStatus := body, error := none },
   [Request.healthGet])

/-- `fetchMonitorStatus`: GET `/monitor/status`; the response status is never
inspected; the decoded body replaces the slot wholesale; any throw is only
logged.  The outcome carries the HTTP status and the parse result. -/
def fetchMonitorStatus {α : Type}
    (o : Except Unit (Nat × Option MonitorStatus)) (st : AppState α) :
    AppState α × List Request :=
  (match o with
   | .ok (_, some data) => { st with monitorStatus := data }
   | .ok (_, none) => st
   | .error _ => st,
   [Request.statusGet])

/-- `fetchSignals`: return immediately unless the captured monitor status is
active; otherwise GET `/monitor/signals` and replace the signals slot;
throws are only logged.  `ms` is the closure's `monitorStatus` binding. -/
def fetchSignals {α : Type} (ms : MonitorStatus) (o : Except Unit (Option α))
    (st : AppState α) : AppState α × List Request :=
  if !ms.active then (st, [])
  else
    (match o with
     | .ok (some data) => { st with signals := data }
     | .ok none => st
     | .error _ => st,
     [Request.signalsGet])

/-- `startMonitoring`: split the symbol input on commas and trim (keeping
empty entries), POST once to `/monitor/start`; on `!response.ok` surface
`errorData.detail || 'Failed to start monitoring'` (JS falsiness: an empty
detail falls back); on ok refresh the monitor status and clear the error. -/
def startMonitoring {α : Type} (resp : Except JStr StartResp)
    (so : Except Unit (Nat × Option MonitorStatus)) (st : AppState α) :
    AppState α × List Request :=
  let symbols := (jsplit ',' st.symbolInput).map jtrim
  match resp with
  | .error msg =>
    ({ st with error := some msg, isLoading := false },
     [Request.startPost symbols])
  | .ok r =>
    if r.ok then
      let p := fetchMonitorStatus so st
      ({ p.1 with error := none, isLoading := false },
       Request.startPost symbols :: p.2)
    else
      let msg :=
        match r.detail with
        | some d => if d = [] then str ("Failed to start monitoring") else d
        | none => str ("Failed to start monitoring")
      ({ st with error := some msg, isLoading := false },
       [Request.startPost symbols])

/-- `fetchSymbolDetails`: four sub-requests (chart, levels, analysis,
price); only if all four succeed is the merged entry committed for the
symbol (and the detail view opened); any rejection is caught and surfaces
the generic per-symbol message, leaving the cache untouched. -/
def fetchSymbolDetails {α : Type} (symbol : JStr)
    (chart levels analysis price : Option α) (st : AppState α) :
    AppState α :=
  match chart, levels, analysis, price with
  | some c, some l, some a, some p =>
    { st with
      symbolDetails := objSet st.symbolDetails symbol ⟨c, l, a, p⟩,
      selectedSymbol := some symbol,
      activeView := ViewKind.symbolDetail,
      error := none,
      isLoading := false }
  | _, _, _, _ =>
    { st with
      error := some (str ("Failed to fetch details for ") ++ symbol),
      isLoading := false }

/-- `refreshData`: health, then status, then signals if the captured
monitor status (the render snapshot `st0`) is active. -/
def refreshData {α : Type} (ho : HealthOutcome)
    (so : Except Unit (Nat × Option MonitorStatus))
    (sg : Except Unit (Option α)) (st0 : AppState α) :
    AppState α × List Request :=
  let p1 := fetchHealthStatus ho st0
  let p2 := fetchMonitorStatus so p1.1
  if st0.monitorStatus.active then
    let p3 := fetchSignals st0.monitorStatus sg p2.1
    (p3.1, p1.2 ++ p2.2 ++ p3.2)
  else
    (p2.1, p1.2 ++ p2.2)

/-- The App component's initial state (signals is the empty object,
embedded here at `α := Nat` as `0`). -/
def initialAppState : AppState Nat :=
  { monitorStatus := ⟨false, [], none⟩,
    signals := 0,
    healthStatus := ⟨str ("unknown"), str ("Unknown")⟩,
    symbolDetails := [],
    selectedSymbol := none,
    isLoading := false,
    error := none,
    symbolInput := str ("EURUSD,GBPUSD,USDJPY,XAUUSD"),
    activeView := ViewKind.dashboard }

/- ---------------------------------------------------------------------- -/
/- Claim theorems.                                                         -/
/- ---------------------------------------------------------------------- -/

/-- Claim C1: `fetchSymbolDetails` commits the merged `{chart, levels,
analysis, price}` entry for the symbol exactly when all four sub-requests
succeed; if any one rejects, the symbol-detail cache is left unchanged and
the generic per-symbol message `Failed to fetch details for <symbol>` is
surfaced. -/
theorem fetchSymbolDetails_spec (α : Type) (symbol : JStr) (st : AppState α) :
    (∀ c l a p : α,
      fetchSymbolDetails symbol (some c) (some l) (some a) (some p) st =
        { st with
          symbolDetails := objSet st.symbolDetails symbol ⟨c, l, a, p⟩,
          selectedSymbol := some symbol,
          activeView := ViewKind.symbolDetail,
          error := none,
          isLoading := false }) ∧
    (∀ c l a p : Option α,
      (c = none ∨ l = none ∨ a = none ∨ p = none) →
        (fetchSymbolDetails symbol c l a p st).symbolDetails =
            st.symbolDetails ∧
          (fetchSymbolDetails symbol c l a p st).error =
            some (str ("Failed to fetch details for ") ++ symbol)) := by
  constructor
  · intro c l a p
    rfl
  · intro c l a p h
    cases c <;> cases l <;> cases a <;> cases p <;>
      simp_all [fetchSymbolDetails]

/-- Witness for C1: the success case commits and the single-rejection case
leaves the cache of the initial state unchanged. -/
theorem fetchSymbolDetails_spec_witness :
    (fetchSymbolDetails (str ("EURUSD")) (some 1) (some 2) (some 3) (some 4)
        initialAppState =
      { initialAppState with
        symbolDetails :=
          objSet initialAppState.symbolDetails (str ("EURUSD")) ⟨1, 2, 3, 4⟩,
        selectedSymbol := some (str ("EURUSD")),
        activeView := ViewKind.symbolDetail,
        error := none,
        isLoading := false }) ∧
    ((fetchSymbolDetails (str ("EURUSD")) (none : Option Nat) (some 2)
          (some 3) (some 4) initialAppState).symbolDetails =
        initialAppState.symbolDetails ∧
      (fetchSymbolDetails (str ("EURUSD")) (none : Option Nat) (some 2)
          (some 3) (some 4) initialAppState).error =
        some (str ("Failed to fetch details for ") ++ str ("EURUSD"))) :=
  ⟨(fetchSymbolDetails_spec Nat (str ("EURUSD")) initialAppState).1 1 2 3 4,
   (fetchSymbolDetails_spec Nat (str ("EURUSD")) initialAppState).2
     none (some 2) (some 3) (some 4) (Or.inl rfl)⟩

/-- Counterexample to claim C2 as stated: from the synced empty state,
adding the custom symbol `" EURUSD"` (leading space, as the input allows)
appends a text whose token `EURUSD` is a catalog symbol, while the checkbox
map is not updated (the raw string is not a catalog member), so the
invariant breaks. -/
theorem selector_invariant_cex :
    Synced (initSelected []) [] ∧
    ¬ Synced
        (handleAddCustomSymbol (initSelected []) [] (str (" EURUSD"))).1
        (handleAddCustomSymbol (initSelected []) [] (str (" EURUSD"))).2 := by
  decide

/-- Claim C2 (amended): starting from a synced state, the invariant (text
and checkbox map agree on every catalog symbol; the map has only catalog
keys) is preserved by a checkbox toggle of a catalog symbol, by any direct
free-text edit, and by a custom-symbol add whose string is trimmed and
comma-free. -/
theorem selector_invariant_preserved (m : SelMap) (value : JStr)
    (hsync : Synced m value) :
    (∀ s ∈ allCommonSymbols,
      Synced (handleSymbolToggle m value s).1
        (handleSymbolToggle m value s).2) ∧
    (∀ newInput : JStr,
      Synced (handleDirectInputChange m newInput).1
        (handleDirectInputChange m newInput).2) ∧
    (∀ cs : JStr, jtrim cs = cs → ',' ∉ cs →
      Synced (handleAddCustomSymbol m value cs).1
        (handleAddCustomSymbol m value cs).2) := by
  rcases hsync with ⟨hval, hkeys, hnd⟩
  exact ⟨fun s hs => synced_toggle hkeys hnd hs,
         fun newInput => synced_direct newInput hkeys hnd,
         fun cs htrim hcomma => synced_add ⟨hval, hkeys, hnd⟩ htrim hcomma⟩

/-- Witness for C2: the invariant is preserved by toggling GBPUSD from the
synced state for the text `EURUSD`. -/
theorem selector_invariant_preserved_witness :
    Synced
      (handleSymbolToggle (initSelected (str ("EURUSD"))) (str ("EURUSD"))
        (str ("GBPUSD"))).1
      (handleSymbolToggle (initSelected (str ("EURUSD"))) (str ("EURUSD"))
        (str ("GBPUSD"))).2 :=
  (selector_invariant_preserved (initSelected (str ("EURUSD")))
      (str ("EURUSD")) (by decide)).1 (str ("GBPUSD")) (by decide)

/-- Claim C3: the text emitted by a checkbox toggle tokenizes to the checked
keys of the updated map followed by the non-catalog tokens of the previous
text in their original order; and on the text `EURUSD, GBPUSD, FOO`,
toggling AUDUSD on emits exactly `EURUSD,GBPUSD,AUDUSD,FOO`. -/
theorem toggle_emits_checked_then_custom :
    (∀ (m : SelMap) (value s : JStr),
      (∀ p ∈ m, p.1 ∈ allCommonSymbols) → s ∈ allCommonSymbols →
        tokensOf (handleSymbolToggle m value s).2 =
          checkedKeys (objSet m s (!objGet m s)) ++
            (tokensOf value).filter (fun t => !jincl allCommonSymbols t)) ∧
    (handleSymbolToggle (initSelected (str ("EURUSD, GBPUSD, FOO")))
        (str ("EURUSD, GBPUSD, FOO")) (str ("AUDUSD"))).2 =
      str ("EURUSD,GBPUSD,AUDUSD,FOO") := by
  constructor
  · intro m value s hkeys hs
    unfold handleSymbolToggle
    dsimp only
    apply tokensOf_updateSymbolInput
    intro p hp
    rcases mem_objSet hp with h | h
    · rw [h]; exact hs
    · exact hkeys p h
  · decide

/-- Witness for C3: the token-level description applied at the example
input. -/
theorem toggle_emits_witness :
    tokensOf (handleSymbolToggle (initSelected (str ("EURUSD, GBPUSD, FOO")))
        (str ("EURUSD, GBPUSD, FOO")) (str ("AUDUSD"))).2 =
      checkedKeys (objSet (initSelected (str ("EURUSD, GBPUSD, FOO")))
          (str ("AUDUSD"))
          (!objGet (initSelected (str ("EURUSD, GBPUSD, FOO")))
            (str ("AUDUSD")))) ++
        (tokensOf (str ("EURUSD, GBPUSD, FOO"))).filter
          (fun t => !jincl allCommonSymbols t) :=
  toggle_emits_checked_then_custom.1
    (initSelected (str ("EURUSD, GBPUSD, FOO")))
    (str ("EURUSD, GBPUSD, FOO")) (str ("AUDUSD")) (by decide) (by decide)

/-- Counterexample to claim C4 as stated: a non-success response whose body
contains the detail string `""` surfaces the fallback message, not that
detail string (JS `errorData.detail || ...` treats the empty string as
falsy). -/
theorem startMonitoring_empty_detail_cex :
    (startMonitoring (Except.ok ⟨false, some []⟩) (Except.error ())
        initialAppState).1.error =
      some (str ("Failed to start monitoring")) ∧
    str ("Failed to start monitoring") ≠ ([] : JStr) := by
  decide

/-- Claim C4 (amended): on a non-success status whose body carries a
non-empty `detail` string, exactly that string is surfaced, the monitor
status is untouched, and exactly one start POST is issued (no retry); on a
success status, the error is cleared and the monitor status is refreshed
from the follow-up status GET. -/
theorem startMonitoring_spec (α : Type) (st : AppState α) (r : StartResp)
    (so : Except Unit (Nat × Option MonitorStatus)) (d : JStr) :
    (r.ok = false → r.detail = some d → d ≠ [] →
      (startMonitoring (Except.ok r) so st).1.error = some d ∧
      (startMonitoring (Except.ok r) so st).1.monitorStatus =
        st.monitorStatus ∧
      (startMonitoring (Except.ok r) so st).2 =
        [Request.startPost ((jsplit ',' st.symbolInput).map jtrim)]) ∧
    (r.ok = true →
      (startMonitoring (Except.ok r) so st).1.error = none ∧
      (startMonitoring (Except.ok r) so st).1.monitorStatus =
        (fetchMonitorStatus so st).1.monitorStatus ∧
      (startMonitoring (Except.ok r) so st).2 =
        [Request.startPost ((jsplit ',' st.symbolInput).map jtrim),
         Request.statusGet]) := by
  constructor
  · intro hok hdet hne
    simp only [startMonitoring, hok, hdet, Bool.false_eq_true, if_false,
      if_neg hne]
    refine ⟨?_, ?_, ?_⟩ <;> first | rfl | trivial
  · intro hok
    simp only [startMonitoring, hok, if_true]
    refine ⟨?_, ?_, ?_⟩ <;> first | rfl | trivial

/-- Witness for C4: the spec example — HTTP failure with detail
`MT5 not connected` surfaces exactly that string with a single POST; and a
success run clears the error. -/
theorem startMonitoring_spec_witness :
    ((startMonitoring (α := Nat)
        (Except.ok ⟨false, some (str ("MT5 not connected"))⟩)
        (Except.error ()) initialAppState).1.error =
      some (str ("MT5 not connected")) ∧
    (startMonitoring (α := Nat)
        (Except.ok ⟨false, some (str ("MT5 not connected"))⟩)
        (Except.error ()) initialAppState).1.monitorStatus =
      initialAppState.monitorStatus ∧
    (startMonitoring (α := Nat)
        (Except.ok ⟨false, some (str ("MT5 not connected"))⟩)
        (Except.error ()) initialAppState).2 =
      [Request.startPost
        ((jsplit ',' initialAppState.symbolInput).map jtrim)]) ∧
    (startMonitoring (α := Nat) (Except.ok ⟨true, none⟩) (Except.error ())
        initialAppState).1.error = none :=
  ⟨(startMonitoring_spec Nat initialAppState
      ⟨false, some (str ("MT5 not connected"))⟩ (Except.error ())
      (str ("MT5 not connected"))).1 rfl rfl (by decide),
   ((startMonitoring_spec Nat initialAppState ⟨true, none⟩ (Except.error ())
      []).2 rfl).1⟩

/-- Claim C5: a network/CORS-level failure of the health GET (a thrown
`TypeError`) sets the descriptive CORS error message and marks the health
state `{status: error, mt5_status: Unknown}`; a successful request replaces
the health state with the body and clears the error. -/
theorem fetchHealthStatus_spec (α : Type) (st : AppState α) (e : JsError) :
    (e.name = str ("TypeError") →
      (fetchHealthStatus (HealthOutcome.failure e) st).1 =
        { st with error := some corsErrorMsg,
                  healthStatus := ⟨str ("error"), str ("Unknown")⟩ }) ∧
    (∀ body : HealthStatus,
      (fetchHealthStatus (HealthOutcome.success body) st).1 =
        { st with healthStatus := body, error := none }) := by
  constructor
  · intro hname
    show handleHealthErr e st = _
    unfold handleHealthErr
    rw [if_pos (Or.inr hname)]
  · intro body
    rfl

/-- Witness for C5: the browser's network failure (`TypeError` named
`Failed to fetch`) takes the CORS branch on the initial state. -/
theorem fetchHealthStatus_spec_witness :
    (fetchHealthStatus
        (HealthOutcome.failure
          ⟨str ("TypeError"), str ("Failed to fetch")⟩)
        initialAppState).1 =
      { initialAppState with
        error := some corsErrorMsg,
        healthStatus := ⟨str ("error"), str ("Unknown")⟩ } :=
  (fetchHealthStatus_spec Nat initialAppState
    ⟨str ("TypeError"), str ("Failed to fetch")⟩).1 rfl

/-- Claim C6: `fetchSignals` invoked with an inactive captured monitor
status returns immediately with no request and an unchanged state; and a
`refreshData` run whose snapshot has `active = false` issues no signals GET
and leaves the signals slot unchanged. -/
theorem fetchSignals_gated (α : Type) (ms : MonitorStatus)
    (o : Except Unit (Option α)) (st : AppState α) (ho : HealthOutcome)
    (so : Except Unit (Nat × Option MonitorStatus))
    (sg : Except Unit (Option α)) (st0 : AppState α) :
    (ms.active = false → fetchSignals ms o st = (st, [])) ∧
    (st0.monitorStatus.active = false →
      Request.signalsGet ∉ (refreshData ho so sg st0).2 ∧
      (refreshData ho so sg st0).1.signals = st0.signals) := by
  constructor
  · intro h
    simp [fetchSignals, h]
  · intro h
    have hsig1 : ∀ (s : AppState α), (fetchHealthStatus ho s).1.signals =
        s.signals := by
      intro s
      cases ho with
      | failure e =>
        show (handleHealthErr e s).signals = s.signals
        unfold handleHealthErr
        split <;> rfl
      | httpError n =>
        show (handleHealthErr _ s).signals = s.signals
        unfold handleHealthErr
        split <;> rfl
      | success body => rfl
    have hsig2 : ∀ (s : AppState α), (fetchMonitorStatus so s).1.signals =
        s.signals := by
      intro s
      cases so with
      | error u => rfl
      | ok pr =>
        rcases pr with ⟨n, body⟩
        cases body <;> rfl
    have hreq1 : (fetchHealthStatus ho st0).2 = [Request.healthGet] := rfl
    have hreq2 : ∀ (s : AppState α), (fetchMonitorStatus so s).2 =
        [Request.statusGet] := fun s => rfl
    unfold refreshData
    rw [if_neg (by rw [h]; exact Bool.false_ne_true)]
    constructor
    · rw [hreq1, hreq2]
      simp
    · rw [hsig2, hsig1]

/-- Witness for C6: a standalone inactive `fetchSignals` call and an
inactive `refreshData` run on the initial state. -/
theorem fetchSignals_gated_witness :
    (fetchSignals ⟨false, [], none⟩ (Except.error ()) initialAppState =
      (initialAppState, [])) ∧
    (Request.signalsGet ∉
      (refreshData (HealthOutcome.httpError 500) (Except.error ())
        (Except.error ()) initialAppState).2 ∧
    (refreshData (HealthOutcome.httpError 500) (Except.error ())
        (Except.error ()) initialAppState).1.signals =
      initialAppState.signals) :=
  ⟨(fetchSignals_gated Nat ⟨false, [], none⟩ (Except.error ())
      initialAppState (HealthOutcome.httpError 500) (Except.error ())
      (Except.error ()) initialAppState).1 rfl,
   (fetchSignals_gated Nat ⟨false, [], none⟩ (Except.error ())
      initialAppState (HealthOutcome.httpError 500) (Except.error ())
      (Except.error ()) initialAppState).2 rfl⟩

/-- Claim C7: `handleAddCustomSymbol` leaves the text unchanged when the
symbol is already one of its trimmed tokens (case-sensitive exact match),
appends it to the token list otherwise, and sets the checkbox whenever the
added symbol is a catalog symbol. -/
theorem handleAddCustomSymbol_spec (m : SelMap) (value cs : JStr)
    (hne : cs ≠ []) :
    (cs ∈ tokensOf value →
      (handleAddCustomSymbol m value cs).2 = value) ∧
    (cs ∉ tokensOf value →
      (handleAddCustomSymbol m value cs).2 =
        jjoin ',' (tokensOf value ++ [cs])) ∧
    (cs ∈ allCommonSymbols →
      objGet (handleAddCustomSymbol m value cs).1 cs = true) := by
  unfold handleAddCustomSymbol
  rw [if_neg hne]
  dsimp only
  refine ⟨?_, ?_, ?_⟩
  · intro hmem
    rw [if_pos ((jincl_iff _ _).mpr hmem)]
  · intro hmem
    rw [if_neg (fun hc => hmem ((jincl_iff _ _).mp hc))]
  · intro hcat
    rw [if_pos ((jincl_iff _ _).mpr hcat)]
    exact objGet_objSet_same m cs true

/-- Witness for C7: adding `EURUSD` when it is already the text leaves the
text unchanged and checks its box; adding `FOO` appends it. -/
theorem handleAddCustomSymbol_spec_witness :
    ((handleAddCustomSymbol (initSelected (str ("EURUSD"))) (str ("EURUSD"))
        (str ("EURUSD"))).2 = str ("EURUSD") ∧
    objGet (handleAddCustomSymbol (initSelected (str ("EURUSD")))
        (str ("EURUSD")) (str ("EURUSD"))).1 (str ("EURUSD")) = true) ∧
    (handleAddCustomSymbol (initSelected (str ("EURUSD"))) (str ("EURUSD"))
        (str ("FOO"))).2 =
      jjoin ',' (tokensOf (str ("EURUSD")) ++ [str ("FOO")]) :=
  ⟨⟨(handleAddCustomSymbol_spec (initSelected (str ("EURUSD")))
       (str ("EURUSD")) (str ("EURUSD")) (by decide)).1 (by decide),
    (handleAddCustomSymbol_spec (initSelected (str ("EURUSD")))
       (str ("EURUSD")) (str ("EURUSD")) (by decide)).2.2 (by decide)⟩,
   (handleAddCustomSymbol_spec (initSelected (str ("EURUSD")))
      (str ("EURUSD")) (str ("FOO")) (by decide)).2.1 (by decide)⟩

/-- Claim C8: the text-to-checkbox derivation of `handleDirectInputChange`
is idempotent: applying it twice to the same text yields the same map as
once; and (for a well-formed map) deriving, re-emitting the membership via
`updateSymbolInput`, and deriving again returns the same map. -/
theorem handleDirectInputChange_fst (m : SelMap) (v : JStr) :
    (handleDirectInputChange m v).1 =
      allCommonSymbols.foldl
        (fun acc x => objSet acc x (jincl (tokensOf v) x)) m := rfl

theorem derive_idempotent (m : SelMap) (v : JStr) :
    ((handleDirectInputChange (handleDirectInputChange m v).1 v).1 =
      (handleDirectInputChange m v).1) ∧
    ((∀ p ∈ m, p.1 ∈ allCommonSymbols) → (m.map Prod.fst).Nodup →
      (handleDirectInputChange (handleDirectInputChange m v).1
          (updateSymbolInput (handleDirectInputChange m v).1 v)).1 =
        (handleDirectInputChange m v).1) := by
  have hget : ∀ s ∈ allCommonSymbols,
      objGet (handleDirectInputChange m v).1 s = jincl (tokensOf v) s := by
    intro s hs
    show objGet (allCommonSymbols.foldl
      (fun acc x => objSet acc x (jincl (tokensOf v) x)) m) s = _
    rw [foldl_objSet_get, if_pos hs]
  have hmem : ∀ s ∈ allCommonSymbols,
      s ∈ ((handleDirectInputChange m v).1.map Prod.fst) := by
    intro s hs
    exact mem_keys_foldl_of_mem (fun x => jincl (tokensOf v) x)
      allCommonSymbols m hs
  constructor
  · rw [handleDirectInputChange_fst ((handleDirectInputChange m v).1) v]
    exact foldl_objSet_noop _ _ _
      (fun s hs => ⟨hmem s hs, hget s hs⟩)
  · intro hkeys hnd
    have hkeys1 : ∀ p ∈ (handleDirectInputChange m v).1,
        p.1 ∈ allCommonSymbols := by
      intro p hp
      have hp1 := List.mem_map_of_mem Prod.fst hp
      rcases mem_keys_foldl _ _ _ hp1 with h | h
      · exact h
      · rw [List.mem_map] at h
        rcases h with ⟨q, hq, hqp⟩
        exact hqp ▸ hkeys q hq
    have hnd1 : ((handleDirectInputChange m v).1.map Prod.fst).Nodup :=
      nodup_keys_foldl _ _ _ hnd
    rw [handleDirectInputChange_fst ((handleDirectInputChange m v).1)
      (updateSymbolInput (handleDirectInputChange m v).1 v)]
    apply foldl_objSet_noop
    intro s hs
    refine ⟨hmem s hs, ?_⟩
    rw [jincl_tokens_update _ v s hkeys1 hnd1 hs]

/-- Witness for C8: the derive/re-emit/derive loop is the identity at a
concrete map and text. -/
theorem derive_idempotent_witness :
    (handleDirectInputChange (handleDirectInputChange [] (str ("EURUSD,FOO"))).1
        (updateSymbolInput (handleDirectInputChange [] (str ("EURUSD,FOO"))).1
          (str ("EURUSD,FOO")))).1 =
      (handleDirectInputChange [] (str ("EURUSD,FOO"))).1 :=
  (derive_idempotent [] (str ("EURUSD,FOO"))).2 (by decide) (by decide)

/-- Claim C9: `fetchMonitorStatus` never inspects the response status — any
parsed body replaces the whole MonitorStatus slot — and only a transport
failure or a parse failure leaves the state (including the error banner)
unchanged. -/
theorem fetchMonitorStatus_spec (α : Type) (st : AppState α) (s1 s2 : Nat)
    (body : Option MonitorStatus) (d : MonitorStatus) :
    (fetchMonitorStatus (Except.ok (s1, body)) st =
      fetchMonitorStatus (Except.ok (s2, body)) st) ∧
    (fetchMonitorStatus (Except.ok (s1, some d)) st).1 =
      { st with monitorStatus := d } ∧
    (fetchMonitorStatus (Except.ok (s1, none)) st).1 = st ∧
    (fetchMonitorStatus (Except.error ()) st).1 = st := by
  refine ⟨?_, rfl, rfl, rfl⟩
  cases body <;> rfl

/-- Claim C10: `startMonitoring` derives the POSTed symbols by splitting on
commas and trimming, keeping empty tokens; on `EURUSD,,GBPUSD,` the POSTed
array is `[EURUSD, "", GBPUSD, ""]`, unlike the widget tokenization which
drops empties. -/
theorem startMonitoring_posts_untrimmed (α : Type) (st : AppState α)
    (resp : Except JStr StartResp)
    (so : Except Unit (Nat × Option MonitorStatus)) :
    ((startMonitoring resp so st).2.head? =
      some (Request.startPost ((jsplit ',' st.symbolInput).map jtrim))) ∧
    ((jsplit ',' (str ("EURUSD,,GBPUSD,"))).map jtrim =
      [str ("EURUSD"), [], str ("GBPUSD"), []]) ∧
    (tokensOf (str ("EURUSD,,GBPUSD,")) =
      [str ("EURUSD"), str ("GBPUSD")]) := by
  refine ⟨?_, by decide, by decide⟩
  rcases resp with msg | r
  · rfl
  · rcases r with ⟨ok, detail⟩
    cases ok <;> rfl

end TradingMonitor
